import Mathlib

/-!
Shallow embedding of the long-term-memory subsystem of the VSF_Agent
repository, together with proofs of the specification's claims.

The embedding mirrors, definition by definition:
  * `update_memory.py` — `MemoryUpdater._parse_longterm_file`,
    `_cleanup_longterm_file`, `_get_all_dates_in_qdrant`, `_cleanup_qdrant`,
    `_clear_temp_file`, `update_memory`;
  * `Database/init_longterm_memory.py` — `parse_longterm_file`;
  * `Database/upload_to_qdrant.py` — `get_batch_embeddings`;
  * `tools/memory_tool.py` — `SaveMemoryTool._run`;
  * `agent_with_memory.py` — `MemoryAgent.__init__`, `_prime_memory`,
    `_should_reprime`, `chat`.

Text is modelled as `List Char` (Python strings are sequences of code
points, and Python's lexicographic string comparison is code-point
comparison, exactly `Char` comparison here).  External effects (LLM
calls, the vector-store client, file-system errors) are modelled by
explicit outcome oracles passed as arguments.
-/

namespace VSF

/-! ### Character classes and Python string helpers

`pyIsSpace` is Python's `str.strip` / regex `\s` class restricted to the
ASCII whitespace characters; `tsChar` is the regex class `[\d\-]`,
`clockChar` is `[\d:]`. -/

def pyIsSpace (c : Char) : Bool :=
  c = ' ' || c = '\t' || c = '\n' || c = '\r' || c = '\x0b' || c = '\x0c'

def tsChar (c : Char) : Bool := c.isDigit || c = '-'

def clockChar (c : Char) : Bool := c.isDigit || c = ':'

/-- Python `str.strip()`: drop leading and trailing whitespace. -/
def stripL (l : List Char) : List Char :=
  ((l.dropWhile pyIsSpace).reverse.dropWhile pyIsSpace).reverse

/-- Iterating over a file's lines: split the content at newline characters. -/
def splitNl : List Char → List (List Char)
  | [] => [[]]
  | c :: cs =>
    if c = '\n' then [] :: splitNl cs
    else
      match splitNl cs with
      | [] => [[c]]
      | l :: ls => (c :: l) :: ls

/-- Lexicographic (code-point) strict comparison of Python strings. -/
def listLt : List Char → List Char → Bool
  | [], [] => false
  | [], _ :: _ => true
  | _ :: _, [] => false
  | a :: as, b :: bs => if a < b then true else if b < a then false else listLt as bs

/-- Comparison `a ≥ b` in Python string order; the one used by
`sorted(..., reverse=True)`. -/
def listGe (a b : List Char) : Bool := listLt b a || a == b

/-- Relation `a ≥ b` as a proposition. -/
def DateGe (a b : List Char) : Prop := listGe a b = true

instance : DecidableRel DateGe := fun _ _ => inferInstanceAs (Decidable (_ = true))

/-- Python `sorted(l, reverse=True)` on strings.  The inputs sorted in this
development are always duplicate-free, so any comparison sort computes the
same list; insertion sort is used so that the definition evaluates by
kernel reduction. -/
def sortDatesDesc (l : List (List Char)) : List (List Char) :=
  l.insertionSort DateGe

/-! ### `MemoryUpdater._parse_longterm_file` (update_memory.py:249-286) -/

/-- One parsed line of `longterm.txt`.  Fields mirror the Python dict keys
`timestamp`, `date`, `text`, `full_line` (the unused `line_num` key is
omitted). -/
structure LogEntry where
  timestamp : List Char
  date : List Char
  text : List Char
  fullLine : List Char
deriving DecidableEq, Repr

/-- The regex `\[([\d\-]+\s+[\d:]+)\]\s*(.*)` applied to a line, returning
(group 1, group 2).  The three character classes of group 1 and the closing
bracket are pairwise disjoint, so greedy matching is maximal-munch. -/
def matchTimestampLine (l : List Char) : Option (List Char × List Char) :=
  match l with
  | '[' :: r0 =>
    let run1 := r0.takeWhile tsChar
    let r1 := r0.dropWhile tsChar
    let ws := r1.takeWhile pyIsSpace
    let r2 := r1.dropWhile pyIsSpace
    let run2 := r2.takeWhile clockChar
    let r3 := r2.dropWhile clockChar
    if run1.isEmpty || ws.isEmpty || run2.isEmpty then none
    else
      match r3 with
      | ']' :: tail => some (run1 ++ ws ++ run2, tail.dropWhile pyIsSpace)
      | _ => none
  | _ => none

/-- Model of `date_str = date_match.group(1) if date_match else timestamp_str` with
`date_match = re.match(r'([\d\-]+)', timestamp_str)`. -/
def leadingDate (ts : List Char) : List Char :=
  let run := ts.takeWhile tsChar
  if run.isEmpty then ts else run

/-- One iteration of the parsing loop of `_parse_longterm_file`: strip the
line, skip it when empty, and keep it only when the timestamp regex
matches.  A non-empty line that does not match produces no entry. -/
def parseLongtermLine (rawLine : List Char) : Option LogEntry :=
  let line := stripL rawLine
  if line.isEmpty then none
  else
    match matchTimestampLine line with
    | some (ts, rest) =>
      some { timestamp := ts
             date := leadingDate ts
             text := stripL rest
             fullLine := line }
    | none => none

def parseLongtermFile (content : List Char) : List LogEntry :=
  (splitNl content).filterMap parseLongtermLine

/-! ### `MemoryUpdater._cleanup_longterm_file` (update_memory.py:288-327) -/

/-- The distinct `date` values of a parsed entry list (as a set; the
Python code collects them as `defaultdict` keys and immediately sorts). -/
def entryDates (es : List LogEntry) : List (List Char) := (es.map (·.date)).dedup

/-- Model of `_cleanup_longterm_file` as a pure function from old file content to
new file content.  An empty parse or at most `maxDays` distinct dates is a
no-op; otherwise the file is rewritten with exactly the entries whose date
is among the `maxDays` greatest, as `full_line + '\n'`, in parse order. -/
def cleanupLongtermFile (maxDays : Nat) (content : List Char) : List Char :=
  let entries := parseLongtermFile content
  if entries.isEmpty then content
  else
    let uniqueDates := sortDatesDesc (entryDates entries)
    if uniqueDates.length ≤ maxDays then content
    else
      let datesToKeep := uniqueDates.take maxDays
      let kept := entries.filter (fun e => datesToKeep.contains e.date)
      (kept.map (fun e => e.fullLine ++ ['\n'])).flatten

/-- The distinct dates currently recorded in a log file's content. -/
def distinctLogDates (content : List Char) : List (List Char) :=
  entryDates (parseLongtermFile content)

/-! ### `parse_longterm_file` (Database/init_longterm_memory.py:33-75) -/

/-- One parsed line of the init script; dict keys `id`, `timestamp`,
`text`, `text_without_timestamp`. -/
structure InitEntry where
  lineNum : Nat
  timestamp : List Char
  text : List Char
  textWithoutTimestamp : List Char
deriving DecidableEq, Repr

/-- The regex `\[(.*?)\]\s*(.*)`: a lazy group up to the first `]`. -/
def matchBracketLine (l : List Char) : Option (List Char × List Char) :=
  match l with
  | '[' :: r0 =>
    if r0.contains ']' then
      let ts := r0.takeWhile (fun c => !(c == ']'))
      let tail := (r0.dropWhile (fun c => !(c == ']'))).tail
      some (ts, tail.dropWhile pyIsSpace)
    else none
  | _ => none

/-- One iteration of the init script's parsing loop: a non-empty line
that does not match the bracket prefix is kept verbatim with
`timestamp = "unknown"`. -/
def initParseLine (lineNum : Nat) (rawLine : List Char) : Option InitEntry :=
  let line := stripL rawLine
  if line.isEmpty then none
  else
    match matchBracketLine line with
    | some (ts, rest) => some ⟨lineNum, ts, line, stripL rest⟩
    | none => some ⟨lineNum, "unknown".data, line, line⟩

/-- Whole-file parse; `enumerate(f, 1)` numbers every physical line, including skipped ones. -/
def initParseFile (content : List Char) : List InitEntry :=
  ((splitNl content).enumFrom 1).filterMap (fun p => initParseLine p.1 p.2)

/-! ### Vector-store model (payloads as seen by `update_memory.py`) -/

/-- A stored point: its integer id and the payload fields the retention
code reads (`date`, which legacy points may lack, and `timestamp`). -/
structure QPoint where
  id : Nat
  date : Option (List Char)
  timestamp : List Char
deriving DecidableEq, Repr

/-- The date attributed to a payload by both scan loops: a falsy (missing
or empty) `date` field falls back to the leading `[\d\-]+` run of
`timestamp`; when that match also fails the point has no usable date. -/
def pointDate (p : QPoint) : Option (List Char) :=
  let d := p.date.getD []
  if d.isEmpty then
    let run := p.timestamp.takeWhile tsChar
    if run.isEmpty then none else some run
  else some d

/-- The distinct usable dates of a point set. -/
def distinctQdrantDates (pts : List QPoint) : List (List Char) :=
  (pts.filterMap pointDate).dedup

/-- Model of `_get_all_dates_in_qdrant` (update_memory.py:329-380): scroll every
payload, collect the distinct dates, return them most-recent-first.  Any
exception during the scan is caught and yields `[]`. -/
def getAllQdrantDates (scanFail : Bool) (pts : List QPoint) : List (List Char) :=
  if scanFail then [] else sortDatesDesc (distinctQdrantDates pts)

/-- Effect of the collect-ids-then-`delete` body for one expired date. -/
def deletePointsOfDate (pts : List QPoint) (d : List Char) : List QPoint :=
  pts.filter (fun p => !(pointDate p == some d))

/-- Outcomes of the vector-store client during `_cleanup_qdrant`:
`deleteFail d = some e` models an exception raised while collecting or
deleting the points of date `d`. -/
structure QdrantOracle where
  scanFail : Bool
  deleteFail : List Char → Option (List Char)

/-- The `for date in dates_to_remove` loop.  It sits inside a single
`try`, so the first exception aborts the remaining iterations; the second
component is the escaped exception, if any. -/
def deleteDatesLoop (deleteFail : List Char → Option (List Char)) :
    List QPoint → List (List Char) → List QPoint × Option (List Char)
  | pts, [] => (pts, none)
  | pts, d :: rest =>
    match deleteFail d with
    | some e => (pts, some e)
    | none => deleteDatesLoop deleteFail (deletePointsOfDate pts d) rest

/-- Model of `_cleanup_qdrant` (update_memory.py:382-451).  The surrounding
`except` only logs the escaped exception, so this function is total and
never reports failure to its caller. -/
def cleanupQdrant (maxDays : Nat) (o : QdrantOracle) (pts : List QPoint) : List QPoint :=
  let allDates := getAllQdrantDates o.scanFail pts
  if allDates.isEmpty then pts
  else if allDates.length ≤ maxDays then pts
  else
    let datesToRemove := allDates.drop maxDays
    (deleteDatesLoop o.deleteFail pts datesToRemove).1

/-! ### Point-id allocation and upsert (tools/memory_tool.py:300-326,
update_memory.py:182-222) -/

/-- Allocation `next_id = collection_info.points_count + 1`. -/
def nextPointId (pts : List QPoint) : Nat := pts.length + 1

/-- The ids `next_id + i` given to a batch of `n` new points. -/
def batchIds (pts : List QPoint) (n : Nat) : List Nat :=
  (List.range n).map (fun i => nextPointId pts + i)

/-- Qdrant `upsert` of a single point: overwrite-by-id, append when the
id is new. -/
def upsertPoint (pts : List QPoint) (p : QPoint) : List QPoint :=
  if pts.any (fun q => q.id == p.id) then
    pts.map (fun q => if q.id == p.id then p else q)
  else pts ++ [p]

/-! ### `SaveMemoryTool._run` (tools/memory_tool.py:232-352) -/

/-- External outcomes of one `save_memory` call: an exception while
appending to the file, whether the Qdrant/ProtonX clients are configured,
and an exception while embedding or upserting. -/
structure SaveOracle where
  appendFail : Option (List Char)
  qdrantAvailable : Bool
  qdrantFail : Option (List Char)

structure SaveOutcome where
  output : List Char
  file : List Char
  points : List QPoint
deriving DecidableEq, Repr

/-- Model of `SaveMemoryTool._run`: append the timestamped line to the file, then
best-effort dual-write to Qdrant.  A file failure is re-raised into the
outer handler which returns the error string; a Qdrant failure is only
logged and the success confirmation is still returned. -/
def saveMemoryRun (o : SaveOracle) (information ts : List Char)
    (file : List Char) (pts : List QPoint) : SaveOutcome :=
  if (stripL information).isEmpty then
    ⟨"Không có thông tin để lưu.".data, file, pts⟩
  else
    match o.appendFail with
    | some e => ⟨"Lỗi khi lưu: ".data ++ e, file, pts⟩
    | none =>
      let file' := file ++ ('[' :: ts ++ ']' :: ' ' :: stripL information ++ ['\n'])
      if o.qdrantAvailable then
        match o.qdrantFail with
        | some _ => ⟨"Đã lưu: ".data ++ stripL information, file', pts⟩
        | none =>
          ⟨"Đã lưu: ".data ++ stripL information, file',
            upsertPoint pts ⟨nextPointId pts, none, ts⟩⟩
      else ⟨"Đã lưu: ".data ++ stripL information, file', pts⟩

/-! ### `get_batch_embeddings` (Database/upload_to_qdrant.py:38-80) -/

def pyLower (l : List Char) : List Char := l.map Char.toLower

/-- Python `pat in s` substring containment. -/
def containsSub (pat : List Char) : List Char → Bool
  | [] => pat.isEmpty
  | c :: rest => pat.isPrefixOf (c :: rest) || containsSub pat rest

/-- The rate-limit classification:
`"429" in error_str or "rate limit" in error_str.lower() or "per-minute" in error_str.lower()`. -/
def isRateLimitError (e : List Char) : Bool :=
  containsSub "429".data e || containsSub "rate limit".data (pyLower e) ||
    containsSub "per-minute".data (pyLower e)

/-- Outcome of one `protonx_client.embeddings.create(texts)` call. -/
inductive EmbedAttempt where
  | ok (embeddings : List (List Int))
  | err (msg : List Char)
deriving DecidableEq, Repr

inductive EmbedResult where
  | success (embeddings : List (List Int))
  | raised (msg : List Char)
  | fellThrough
deriving DecidableEq, Repr

/-- Observable outcome of `get_batch_embeddings`: the returned value or
re-raised error, the number of 60-second sleeps performed, and the number
of provider calls made. -/
structure EmbedRun where
  result : EmbedResult
  sleeps : Nat
  attempts : Nat
deriving DecidableEq, Repr

/-- The `for attempt in range(max_retries)` loop, with `oracle i` the
outcome of the `i`-th provider call (the recursive call shifts the
oracle).  A non-final rate-limited failure sleeps 60s; a non-final other
failure retries immediately; a final failure re-raises; an exhausted
range falls through to `return None`. -/
def getBatchEmbeddingsAux (oracle : Nat → EmbedAttempt) : Nat → EmbedRun
  | 0 => ⟨.fellThrough, 0, 0⟩
  | remaining + 1 =>
    match oracle 0 with
    | .ok e => ⟨.success e, 0, 1⟩
    | .err m =>
      if remaining = 0 then ⟨.raised m, 0, 1⟩
      else
        let r := getBatchEmbeddingsAux (fun i => oracle (i + 1)) remaining
        ⟨r.result, r.sleeps + (if isRateLimitError m then 1 else 0), r.attempts + 1⟩

def getBatchEmbeddings (oracle : Nat → EmbedAttempt) (maxRetries : Nat) : EmbedRun :=
  getBatchEmbeddingsAux oracle maxRetries

/-- Rate-limited failures among the first `n` attempts (those are the
attempts the loop sleeps after, when they are not the last). -/
def rateLimitedCount (oracle : Nat → EmbedAttempt) (n : Nat) : Nat :=
  (List.range n).countP fun i =>
    match oracle i with
    | .err m => isRateLimitError m
    | .ok _ => false

/-! ### `MemoryUpdater.update_memory` (update_memory.py:466-545) -/

/-- The mutable stores the maintenance pipeline touches. -/
structure MemState where
  temp : List Char
  log : List Char
  qdrant : List QPoint
deriving DecidableEq, Repr

/-- The result dict built by `update_memory`. -/
structure UpdResult where
  success : Bool
  date : List Char
  qdrantAdded : Nat
  summary : List Char
  longtermCleaned : Bool
  qdrantCleaned : Bool
  tempFileCleared : Bool
  errors : List (List Char)
deriving DecidableEq, Repr

/-- External outcomes of one `update_memory` run.  `llm = .error ()`
models an exception inside `_summarize_with_llm`, which is caught there
and falls back to the verbatim content; the file-system fields model
exceptions that escape to the top-level handler. -/
structure UpdOracle where
  readTempFail : Option (List Char)
  llm : Except Unit (List Char)
  appendFail : Option (List Char)
  cleanupLogFail : Option (List Char)
  qdrant : QdrantOracle
  clearTempFail : Option (List Char)

/-- The `except` branch of `update_memory`: mark the run failed and record
the error, keeping every result field set so far. -/
def updFail (r : UpdResult) (e : List Char) : UpdResult :=
  { r with success := false, errors := r.errors ++ [e] }

/-- Steps 3–5 of the pipeline (cleanup log, cleanup Qdrant, clear temp),
shared by the append and no-append paths. -/
def updateAfterAppend (maxDays : Nat) (o : UpdOracle) (r : UpdResult) (s : MemState) :
    UpdResult × MemState :=
  match o.cleanupLogFail with
  | some e => (updFail r e, s)
  | none =>
    let s1 := { s with log := cleanupLongtermFile maxDays s.log }
    let r1 := { r with longtermCleaned := true }
    let s2 := { s1 with qdrant := cleanupQdrant maxDays o.qdrant s1.qdrant }
    let r2 := { r1 with qdrantCleaned := true }
    match o.clearTempFail with
    | some e => (updFail r2 e, s2)
    | none => ({ r2 with tempFileCleared := true }, { s2 with temp := [] })

/-- Model of `update_memory(date)`: summarize the temp buffer (skipped when it is
empty), append the summary to the log (skipped when the summary is
empty), clean both stores, clear the buffer.  Every exception is caught
at the top level; committed side effects are kept. -/
def updateMemory (maxDays : Nat) (nowTs nowDate : List Char) (o : UpdOracle) (s : MemState) :
    UpdResult × MemState :=
  let r0 : UpdResult :=
    { success := true, date := nowDate, qdrantAdded := 0, summary := [],
      longtermCleaned := false, qdrantCleaned := false, tempFileCleared := false, errors := [] }
  match o.readTempFail with
  | some e => (updFail r0 e, s)
  | none =>
    let tempContent := stripL s.temp
    if tempContent.isEmpty then updateAfterAppend maxDays o r0 s
    else
      let summary :=
        match o.llm with
        | .ok t => stripL t
        | .error _ => tempContent
      let r1 := { r0 with summary := summary }
      if summary.isEmpty then updateAfterAppend maxDays o r1 s
      else
        match o.appendFail with
        | some e => (updFail r1 e, s)
        | none =>
          updateAfterAppend maxDays o r1
            { s with log := s.log ++ ('[' :: nowTs ++ ']' :: ' ' :: stripL summary ++ ['\n']) }

/-! ### `MemoryAgent` session priming (agent_with_memory.py:69-72, 237-307) -/

structure AgentState where
  isPrimed : Bool
  messageCountSincePrime : Nat
  bufferSize : Nat
deriving DecidableEq, Repr

/-- Field initialisation in `MemoryAgent.__init__`. -/
def initAgentState (bufferSize : Nat) : AgentState := ⟨false, 0, bufferSize⟩

/-- Model of `_prime_memory`: the counter reset and flag set happen after the
agent invocation, so a raising invocation (`ok = false`) leaves the state
unchanged and returns `None`. -/
def primeMemory (ok : Bool) (s : AgentState) : AgentState :=
  if ok then { s with messageCountSincePrime := 0, isPrimed := true } else s

/-- Check `_should_reprime`: `message_count_since_prime >= buffer_size`. -/
def shouldReprime (s : AgentState) : Bool :=
  s.bufferSize ≤ s.messageCountSincePrime

/-- One `chat` turn.  `primeOk` is the outcome of a priming invocation
(if one happens), `invokeOk` of the ordinary invocation; the returned
flag says whether the turn produced a reply (`true`) or the caught
exception's `"Lỗi: ..."` string (`false`), in which case the counter
increment is skipped. -/
def chat (autoPrime primeOk invokeOk : Bool) (s : AgentState) : AgentState × Bool :=
  let s1 :=
    if autoPrime && (!s.isPrimed || shouldReprime s) then primeMemory primeOk s else s
  if invokeOk then
    ({ s1 with messageCountSincePrime := s1.messageCountSincePrime + 1 }, true)
  else (s1, false)

/-! ## Concrete data for scenario checks and counterexamples -/

/-- A log holding one entry for each of the twelve days
2024-01-01 … 2024-01-12 (the spec's retention scenario). -/
def sampleLog12 : List Char :=
  ("[2024-01-01 08:00:00] d01\n" ++ "[2024-01-02 08:00:00] d02\n" ++
   "[2024-01-03 08:00:00] d03\n" ++ "[2024-01-04 08:00:00] d04\n" ++
   "[2024-01-05 08:00:00] d05\n" ++ "[2024-01-06 08:00:00] d06\n" ++
   "[2024-01-07 08:00:00] d07\n" ++ "[2024-01-08 08:00:00] d08\n" ++
   "[2024-01-09 08:00:00] d09\n" ++ "[2024-01-10 08:00:00] d10\n" ++
   "[2024-01-11 08:00:00] d11\n" ++ "[2024-01-12 08:00:00] d12\n").data

/-- The same log after dropping the two oldest days. -/
def sampleLog12Kept : List Char :=
  ("[2024-01-03 08:00:00] d03\n" ++ "[2024-01-04 08:00:00] d04\n" ++
   "[2024-01-05 08:00:00] d05\n" ++ "[2024-01-06 08:00:00] d06\n" ++
   "[2024-01-07 08:00:00] d07\n" ++ "[2024-01-08 08:00:00] d08\n" ++
   "[2024-01-09 08:00:00] d09\n" ++ "[2024-01-10 08:00:00] d10\n" ++
   "[2024-01-11 08:00:00] d11\n" ++ "[2024-01-12 08:00:00] d12\n").data

/-- Three points on three distinct days, newest first. -/
def samplePts3 : List QPoint :=
  [⟨1, some "2024-01-03".data, []⟩, ⟨2, some "2024-01-02".data, []⟩,
   ⟨3, some "2024-01-01".data, []⟩]

/-- A vector-store client that fails while deleting the points of
2024-01-02 and succeeds on every other date. -/
def failOn0102 : QdrantOracle :=
  ⟨false, fun d => if d = "2024-01-02".data then some "boom".data else none⟩

/-- A vector-store client whose scan and deletes all succeed. -/
def allOkQdrant : QdrantOracle := ⟨false, fun _ => none⟩

/-- An `update_memory` run in which every external call succeeds. -/
def allOkOracle : UpdOracle := ⟨none, .ok "tóm tắt".data, none, none, allOkQdrant, none⟩

/-- Stores whose two halves already disagree: the log holds only
2024-01-01, the vector store holds only 2024-02-02, and the temp buffer
is empty. -/
def mismatchedState : MemState :=
  ⟨[], "[2024-01-01 10:00:00] a\n".data,
    [⟨1, some "2024-02-02".data, "2024-02-02 09:00:00".data⟩]⟩

/-- An `update_memory` run in which only the final clearing of the temp
file raises. -/
def clearFailOracle : UpdOracle :=
  ⟨none, .ok "s".data, none, none, allOkQdrant, some "disk error".data⟩

/-- A collection from which point 1 has been deleted by retention
cleanup: two points remain, with ids 2 and 3, so `points_count = 2`. -/
def twoPtsShifted : List QPoint := [⟨2, none, "t2".data⟩, ⟨3, none, "t3".data⟩]

/-- An embedding provider that fails with a rate-limit error on the
first two calls and succeeds on the third (the spec's retry scenario). -/
def rlTwiceOracle : Nat → EmbedAttempt := fun i =>
  if i < 2 then .err "HTTP 429 Too Many Requests: rate limit".data
  else .ok [[1, 2], [3, 4]]

/-! ## Order facts about the date comparison -/

theorem listLt_iff_lex {a b : List Char} : listLt a b = true ↔ List.Lex (· < ·) a b := by
  induction a generalizing b with
  | nil =>
    cases b with
    | nil =>
      constructor
      · intro h; simp [listLt] at h
      · intro h; cases h
    | cons y ys =>
      constructor
      · intro _; exact List.Lex.nil
      · intro _; rfl
  | cons x xs ih =>
    cases b with
    | nil =>
      constructor
      · intro h; simp [listLt] at h
      · intro h; exact absurd h (List.Lex.not_nil_right _ _)
    | cons y ys =>
      constructor
      · intro h
        simp only [listLt] at h
        by_cases hxy : x < y
        · exact List.Lex.rel hxy
        · rw [if_neg hxy] at h
          by_cases hyx : y < x
          · rw [if_pos hyx] at h; exact absurd h (by simp)
          · rw [if_neg hyx] at h
            have hxyeq : x = y := le_antisymm (not_lt.mp hyx) (not_lt.mp hxy)
            subst hxyeq
            exact List.Lex.cons (ih.mp h)
      · intro h
        cases h with
        | rel h1 => simp only [listLt]; rw [if_pos h1]
        | cons h1 =>
          simp only [listLt]
          rw [if_neg (lt_irrefl x), if_neg (lt_irrefl x)]
          exact ih.mpr h1

theorem listLt_iff_lt {a b : List Char} : listLt a b = true ↔ a < b := by
  rw [listLt_iff_lex]; exact Eq.to_iff rfl

theorem dateGe_iff {a b : List Char} : DateGe a b ↔ b ≤ a := by
  unfold DateGe listGe
  rw [Bool.or_eq_true, beq_iff_eq, listLt_iff_lt, le_iff_lt_or_eq, eq_comm]

instance : IsTrans (List Char) DateGe :=
  ⟨fun _ _ _ hab hbc => dateGe_iff.mpr ((dateGe_iff.mp hbc).trans (dateGe_iff.mp hab))⟩

instance : IsTotal (List Char) DateGe := by
  refine ⟨fun a b => ?_⟩
  rcases le_total a b with h | h
  · right; exact dateGe_iff.mpr h
  · left; exact dateGe_iff.mpr h

instance : IsAntisymm (List Char) DateGe :=
  ⟨fun _ _ h1 h2 => le_antisymm (dateGe_iff.mp h2) (dateGe_iff.mp h1)⟩

theorem sortDatesDesc_perm (l : List (List Char)) : (sortDatesDesc l).Perm l :=
  List.perm_insertionSort _ _

theorem sortDatesDesc_sorted (l : List (List Char)) : List.Sorted DateGe (sortDatesDesc l) :=
  List.sorted_insertionSort _ _

theorem mem_sortDatesDesc {d : List Char} {l : List (List Char)} :
    d ∈ sortDatesDesc l ↔ d ∈ l :=
  (sortDatesDesc_perm l).mem_iff

theorem sortDatesDesc_nodup {l : List (List Char)} (h : l.Nodup) : (sortDatesDesc l).Nodup :=
  h.perm (sortDatesDesc_perm l).symm

theorem sortDatesDesc_length (l : List (List Char)) :
    (sortDatesDesc l).length = l.length :=
  (sortDatesDesc_perm l).length_eq

/-- Two duplicate-free lists sorted most-recent-first with the same
members are equal. -/
theorem sortedDesc_eq_of_mem_iff {l₁ l₂ : List (List Char)}
    (s₁ : List.Sorted DateGe l₁) (s₂ : List.Sorted DateGe l₂)
    (n₁ : l₁.Nodup) (n₂ : l₂.Nodup) (h : ∀ d, d ∈ l₁ ↔ d ∈ l₂) : l₁ = l₂ :=
  List.eq_of_perm_of_sorted ((List.perm_ext_iff_of_nodup n₁ n₂).mpr h) s₁ s₂

/-! ## Facts about stripping and line splitting -/

theorem dropWhile_dropWhile (p : Char → Bool) (l : List Char) :
    (l.dropWhile p).dropWhile p = l.dropWhile p := by
  induction l with
  | nil => rfl
  | cons c cs ih =>
    by_cases h : p c
    · simp [List.dropWhile_cons, h, ih]
    · simp [List.dropWhile_cons, h]

theorem stripL_sublist (l : List Char) : (stripL l).Sublist l := by
  unfold stripL
  have h1 : ((l.dropWhile pyIsSpace).reverse.dropWhile pyIsSpace).Sublist
      (l.dropWhile pyIsSpace).reverse := List.dropWhile_sublist _
  have h2 := h1.reverse
  rw [List.reverse_reverse] at h2
  exact h2.trans (List.dropWhile_sublist _)

/-- A list that is already left-stripped stays left-stripped after
right-stripping (right-stripping only shortens it from the end). -/
theorem dropWhile_rstrip (p : Char → Bool) (l : List Char) (hl : l.dropWhile p = l) :
    ((l.reverse.dropWhile p).reverse).dropWhile p = (l.reverse.dropWhile p).reverse := by
  have hpre : (l.reverse.dropWhile p).reverse <+: l := by
    have hsuf : (l.reverse.dropWhile p).IsSuffix l.reverse := List.dropWhile_suffix _
    have := List.reverse_prefix.mpr hsuf
    rwa [List.reverse_reverse] at this
  rcases hB : (l.reverse.dropWhile p).reverse with _ | ⟨c, bs⟩
  · rfl
  · rw [hB] at hpre
    rcases hpre with ⟨t, ht⟩
    have hcl : l = c :: (bs ++ t) := by rw [← ht]; simp
    have hpc : p c = false := by
      by_contra hpc
      have hpc' : p c = true := by revert hpc; cases p c <;> simp
      rw [hcl, List.dropWhile_cons, if_pos hpc'] at hl
      have := congrArg List.length hl
      have hle := (List.dropWhile_sublist (l := bs ++ t) p).length_le
      simp only [List.length_cons] at this
      omega
    rw [List.dropWhile_cons, if_neg (by simp [hpc])]

theorem stripL_idem (l : List Char) : stripL (stripL l) = stripL l := by
  have hA : (l.dropWhile pyIsSpace).dropWhile pyIsSpace = l.dropWhile pyIsSpace :=
    dropWhile_dropWhile _ _
  have hB := dropWhile_rstrip pyIsSpace (l.dropWhile pyIsSpace) hA
  show stripL (((l.dropWhile pyIsSpace).reverse.dropWhile pyIsSpace).reverse) = _
  unfold stripL
  rw [hB, List.reverse_reverse, dropWhile_dropWhile]

theorem splitNl_ne_nil (c : List Char) : splitNl c ≠ [] := by
  cases c with
  | nil => simp [splitNl]
  | cons x xs =>
    by_cases h : x = '\n'
    · simp [splitNl, h]
    · simp only [splitNl, if_neg h]
      rcases hs : splitNl xs with _ | ⟨l, ls⟩ <;> simp

theorem not_newline_mem_splitNl {c l : List Char} (h : l ∈ splitNl c) : '\n' ∉ l := by
  induction c generalizing l with
  | nil =>
    simp [splitNl] at h
    simp [h]
  | cons x xs ih =>
    by_cases hx : x = '\n'
    · rw [splitNl, if_pos hx] at h
      rcases List.mem_cons.mp h with h1 | h1
      · simp [h1]
      · exact ih h1
    · rw [splitNl, if_neg hx] at h
      rcases hs : splitNl xs with _ | ⟨t, ts⟩
      · exact absurd hs (splitNl_ne_nil xs)
      · rw [hs] at h
        rcases List.mem_cons.mp h with h1 | h1
        · subst h1
          intro hm
          rcases List.mem_cons.mp hm with h2 | h2
          · exact hx h2.symm
          · exact ih (by rw [hs]; exact List.mem_cons_self _ _) h2
        · exact ih (by rw [hs]; exact List.mem_cons_of_mem _ h1)

theorem splitNl_append {line : List Char} (rest : List Char) (h : '\n' ∉ line) :
    splitNl (line ++ '\n' :: rest) = line :: splitNl rest := by
  induction line with
  | nil => simp [splitNl]
  | cons c cs ih =>
    have hc : ¬ c = '\n' := fun e => h (by simp [e])
    have ih' := ih (fun hm => h (List.mem_cons_of_mem _ hm))
    simp only [List.cons_append, splitNl, if_neg hc, List.append_eq, ih']

/-! ## Round-trip facts about parsing and the log cleanup -/

theorem parseLongtermLine_stripL (raw : List Char) :
    parseLongtermLine (stripL raw) = parseLongtermLine raw := by
  unfold parseLongtermLine
  rw [stripL_idem]

theorem fullLine_of_parse {raw : List Char} {e : LogEntry}
    (h : parseLongtermLine raw = some e) : e.fullLine = stripL raw := by
  simp only [parseLongtermLine] at h
  split at h
  · exact absurd h (by simp)
  · split at h
    · rw [← Option.some.inj h]
    · exact absurd h (by simp)

/-- Every entry produced by the parser re-parses to itself from its own
`full_line`, which contains no newline. -/
theorem canon_of_mem_parse {c : List Char} {e : LogEntry} (h : e ∈ parseLongtermFile c) :
    parseLongtermLine e.fullLine = some e ∧ '\n' ∉ e.fullLine := by
  rcases List.mem_filterMap.mp h with ⟨raw, hraw, hp⟩
  have hfl := fullLine_of_parse hp
  refine ⟨by rw [hfl, parseLongtermLine_stripL, hp], ?_⟩
  rw [hfl]
  intro hm
  exact not_newline_mem_splitNl hraw ((stripL_sublist raw).subset hm)

/-- Parsing the file written as `full_line + '\n'` for a list of
re-parseable entries recovers exactly that list. -/
theorem parse_flatten (es : List LogEntry)
    (h : ∀ e ∈ es, parseLongtermLine e.fullLine = some e ∧ '\n' ∉ e.fullLine) :
    parseLongtermFile ((es.map (fun e => e.fullLine ++ ['\n'])).flatten) = es := by
  induction es with
  | nil => rfl
  | cons e rest ih =>
    have he := h e (List.mem_cons_self _ _)
    have hrest := fun e' h' => h e' (List.mem_cons_of_mem _ h')
    simp only [List.map_cons, List.flatten_cons, List.append_assoc, List.singleton_append]
    show ((splitNl (e.fullLine ++ '\n' :: _)).filterMap parseLongtermLine) = _
    rw [splitNl_append _ he.2]
    simp only [List.filterMap_cons, he.1]
    exact congrArg (e :: ·) (ih hrest)

theorem cleanup_of_le {m : Nat} {c : List Char} (h : (distinctLogDates c).length ≤ m) :
    cleanupLongtermFile m c = c := by
  dsimp only [cleanupLongtermFile]
  by_cases h1 : (parseLongtermFile c).isEmpty
  · rw [if_pos h1]
  · rw [if_neg h1, if_pos (by rw [sortDatesDesc_length]; exact h)]

theorem cleanup_rewrite {m : Nat} {c : List Char} (h : m < (distinctLogDates c).length) :
    cleanupLongtermFile m c =
      (((parseLongtermFile c).filter
          (fun e => ((sortDatesDesc (distinctLogDates c)).take m).contains e.date)).map
        (fun e => e.fullLine ++ ['\n'])).flatten := by
  unfold distinctLogDates at h ⊢
  dsimp only [cleanupLongtermFile]
  have h1 : ¬ (parseLongtermFile c).isEmpty = true := by
    intro hh
    rw [List.isEmpty_iff] at hh
    have : (entryDates (parseLongtermFile c)).length = 0 := by
      simp [entryDates, hh, List.dedup_nil]
    omega
  rw [if_neg h1, if_neg (by rw [sortDatesDesc_length]; omega)]

/-- The entries of the rewritten file are exactly the kept entries. -/
theorem parse_cleanup {m : Nat} {c : List Char} (h : m < (distinctLogDates c).length) :
    parseLongtermFile (cleanupLongtermFile m c) =
      (parseLongtermFile c).filter
        (fun e => ((sortDatesDesc (distinctLogDates c)).take m).contains e.date) := by
  rw [cleanup_rewrite h]
  exact parse_flatten _ (fun e he => canon_of_mem_parse ((List.filter_sublist _).subset he))

theorem mem_dates_cleanup {m : Nat} {c : List Char} (h : m < (distinctLogDates c).length)
    {d : List Char} :
    d ∈ distinctLogDates (cleanupLongtermFile m c) ↔
      d ∈ (sortDatesDesc (distinctLogDates c)).take m := by
  show d ∈ entryDates _ ↔ _
  rw [parse_cleanup h]
  unfold entryDates
  rw [List.mem_dedup]
  constructor
  · intro hd
    rcases List.mem_map.mp hd with ⟨e, he, hde⟩
    have := List.of_mem_filter he
    rw [← hde]
    exact List.elem_iff.mp this
  · intro hd
    have hd' : d ∈ distinctLogDates c := by
      have := (List.take_sublist _ _).subset hd
      exact mem_sortDatesDesc.mp this
    rcases List.mem_map.mp (List.mem_dedup.mp hd') with ⟨e, he, hde⟩
    refine List.mem_map.mpr ⟨e, List.mem_filter.mpr ⟨he, ?_⟩, hde⟩
    rw [hde]
    exact List.elem_iff.mpr hd

/-- After a rewriting cleanup, the dates recorded in the file are exactly
the `maxDays` most recent of the previous distinct dates. -/
theorem dates_cleanup_sorted_eq {m : Nat} {c : List Char}
    (h : m < (distinctLogDates c).length) :
    sortDatesDesc (distinctLogDates (cleanupLongtermFile m c)) =
      (sortDatesDesc (distinctLogDates c)).take m := by
  apply sortedDesc_eq_of_mem_iff
  · exact sortDatesDesc_sorted _
  · exact List.Pairwise.sublist (List.take_sublist _ _) (sortDatesDesc_sorted _)
  · exact sortDatesDesc_nodup (List.nodup_dedup _)
  · exact List.Nodup.sublist (List.take_sublist _ _) (sortDatesDesc_nodup (List.nodup_dedup _))
  · exact fun d => mem_sortDatesDesc.trans (mem_dates_cleanup h)

/-- Whatever the input, a cleaned file records at most `maxDays` distinct
dates. -/
theorem cleanup_dates_le (m : Nat) (c : List Char) :
    (distinctLogDates (cleanupLongtermFile m c)).length ≤ m := by
  by_cases h : (distinctLogDates c).length ≤ m
  · rw [cleanup_of_le h]; exact h
  · push_neg at h
    have hlen := congrArg List.length (dates_cleanup_sorted_eq h)
    rw [sortDatesDesc_length] at hlen
    rw [hlen]
    exact List.length_take_le _ _

/-- Kept lines come from the original file, in order: the parsed and
rewritten lines form a sublist of the original stripped lines. -/
theorem parse_map_fullLine_sublist (c : List Char) :
    ((parseLongtermFile c).map (·.fullLine)).Sublist ((splitNl c).map stripL) := by
  show (((splitNl c).filterMap parseLongtermLine).map _).Sublist _
  induction splitNl c with
  | nil => simp
  | cons raw rest ih =>
    rcases hp : parseLongtermLine raw with _ | e
    · simp only [List.filterMap_cons, hp, List.map_cons]
      exact ih.cons _
    · simp only [List.filterMap_cons, hp, List.map_cons]
      rw [fullLine_of_parse hp]
      exact ih.cons₂ _

/-! ## Claim C9 — cleanup is idempotent -/

/-- C9: for every `maxDays` and every log content, a second
`cleanup(maxDays)` immediately after the first changes nothing: the first
run leaves at most `maxDays` distinct dates, which the second run treats
as a no-op. -/
theorem claim_C9_cleanup_idempotent (m : Nat) (c : List Char) :
    cleanupLongtermFile m (cleanupLongtermFile m c) = cleanupLongtermFile m c :=
  cleanup_of_le (cleanup_dates_le m c)

/-! ## Claim C2 — cleanup keeps exactly the most recent dates -/

set_option maxRecDepth 20000 in
/-- C2: if the parsed entries span at most `maxDays` distinct dates the
cleanup leaves the file unchanged; otherwise the rewritten file records
exactly the `maxDays` lexicographically greatest dates, and its lines are
a subsequence of the original file's stripped lines (so every kept line
was present before, in its original relative order).  In particular, on a
log with the twelve days 2024-01-01 … 2024-01-12 and `maxDays = 10`,
cleanup keeps exactly the entries of 2024-01-03 … 2024-01-12. -/
theorem claim_C2_cleanup_retention (m : Nat) (c : List Char) :
    ((distinctLogDates c).length ≤ m → cleanupLongtermFile m c = c) ∧
    (m < (distinctLogDates c).length →
      sortDatesDesc (distinctLogDates (cleanupLongtermFile m c)) =
        (sortDatesDesc (distinctLogDates c)).take m ∧
      ((parseLongtermFile (cleanupLongtermFile m c)).map (fun e => e.fullLine)).Sublist
        ((splitNl c).map stripL)) ∧
    cleanupLongtermFile 10 sampleLog12 = sampleLog12Kept := by
  refine ⟨fun h => cleanup_of_le h, fun h => ⟨dates_cleanup_sorted_eq h, ?_⟩, by decide⟩
  rw [parse_cleanup h]
  exact ((List.filter_sublist (parseLongtermFile c)).map _).trans (parse_map_fullLine_sublist c)

set_option maxRecDepth 20000 in
theorem claim_C2_cleanup_retention_witness :
    cleanupLongtermFile 12 sampleLog12 = sampleLog12 ∧
    sortDatesDesc (distinctLogDates (cleanupLongtermFile 10 sampleLog12)) =
      (sortDatesDesc (distinctLogDates sampleLog12)).take 10 :=
  ⟨(claim_C2_cleanup_retention 12 sampleLog12).1 (by decide),
   ((claim_C2_cleanup_retention 10 sampleLog12).2.1 (by decide)).1⟩

/-! ## Claim C4 — which parser keeps non-matching lines -/

theorem parseLongtermLine_none_of_empty {raw : List Char} (h : (stripL raw).isEmpty) :
    parseLongtermLine raw = none := by
  dsimp only [parseLongtermLine]
  rw [if_pos h]

theorem parseLongtermLine_none_of_nomatch {raw : List Char}
    (h : matchTimestampLine (stripL raw) = none) : parseLongtermLine raw = none := by
  dsimp only [parseLongtermLine]
  rw [h]
  split <;> rfl

theorem parseLongtermLine_some {raw ts rest : List Char}
    (h0 : ¬ (stripL raw).isEmpty = true) (hm : matchTimestampLine (stripL raw) = some (ts, rest)) :
    parseLongtermLine raw =
      some { timestamp := ts, date := leadingDate ts, text := stripL rest,
             fullLine := stripL raw } := by
  dsimp only [parseLongtermLine]
  rw [if_neg h0, hm]

/-- The init script's parser keeps every non-empty (stripped) line, in
order, as the `text` field of one entry. -/
theorem initParse_texts (c : List Char) :
    (initParseFile c).map (fun e => e.text) =
      ((splitNl c).map stripL).filter (fun l => !l.isEmpty) := by
  show ((((splitNl c).enumFrom 1).filterMap fun p => initParseLine p.1 p.2).map _) = _
  generalize splitNl c = lines
  suffices hgen : ∀ (n : Nat) (ls : List (List Char)),
      (((ls.enumFrom n).filterMap fun p => initParseLine p.1 p.2).map (fun e => e.text)) =
        (ls.map stripL).filter (fun l => !l.isEmpty) from hgen 1 lines
  intro n ls
  induction ls generalizing n with
  | nil => rfl
  | cons raw rest ih =>
    show ((((n, raw) :: rest.enumFrom (n + 1)).filterMap
        fun p => initParseLine p.1 p.2).map (fun e => e.text)) = _
    by_cases h0 : (stripL raw).isEmpty
    · have hnone : initParseLine n raw = none := by
        dsimp only [initParseLine]; rw [if_pos h0]
      simp only [List.filterMap_cons, hnone, List.map_cons, List.filter_cons, h0,
        Bool.not_true, if_neg (by simp : ¬ (false = true))]
      exact ih (n + 1)
    · have hsome : ∃ e : InitEntry, initParseLine n raw = some e ∧ e.text = stripL raw := by
        dsimp only [initParseLine]
        rw [if_neg h0]
        rcases hm : matchBracketLine (stripL raw) with _ | ⟨ts, restg⟩
        · exact ⟨_, rfl, rfl⟩
        · exact ⟨_, rfl, rfl⟩
      rcases hsome with ⟨e, he, het⟩
      simp only [List.filterMap_cons, he, List.map_cons, het, List.filter_cons,
        (by simp [h0] : (!(stripL raw).isEmpty) = true), if_pos rfl]
      exact congrArg (_ :: ·) (ih (n + 1))

/-- In the init script's parser, a kept line whose text does not match
the bracket prefix carries the sentinel timestamp `"unknown"`. -/
theorem initParse_unknown {c : List Char} {e : InitEntry} (he : e ∈ initParseFile c)
    (hm : matchBracketLine e.text = none) : e.timestamp = "unknown".data := by
  rcases List.mem_filterMap.mp he with ⟨p, _, hline⟩
  dsimp only [initParseLine] at hline
  split at hline
  · exact absurd hline (by simp)
  · split at hline
    · rename_i heq
      rw [← Option.some.inj hline] at hm
      rw [heq] at hm
      exact absurd hm (by simp)
    · rw [← Option.some.inj hline]

/-- The updater's parser keeps exactly the non-empty stripped lines that
match its timestamp regex; every other line produces no entry and is
therefore lost by a cleanup rewrite. -/
theorem updaterParse_lines (c : List Char) :
    (parseLongtermFile c).map (fun e => e.fullLine) =
      ((splitNl c).map stripL).filter
        (fun l => !l.isEmpty && (matchTimestampLine l).isSome) := by
  show ((splitNl c).filterMap parseLongtermLine).map _ = _
  induction splitNl c with
  | nil => rfl
  | cons raw rest ih =>
    by_cases h0 : (stripL raw).isEmpty
    · simp only [List.filterMap_cons, parseLongtermLine_none_of_empty h0, List.map_cons,
        List.filter_cons, h0, Bool.not_true, Bool.false_and,
        if_neg (by simp : ¬ (false = true))]
      exact ih
    · rcases hm : matchTimestampLine (stripL raw) with _ | ⟨ts, restg⟩
      · simp only [List.filterMap_cons, parseLongtermLine_none_of_nomatch hm, List.map_cons,
          List.filter_cons, hm, Option.isSome_none, Bool.and_false,
          if_neg (by simp : ¬ (false = true))]
        exact ih
      · simp only [List.filterMap_cons, parseLongtermLine_some h0 hm, List.map_cons,
          List.filter_cons, hm, Option.isSome_some,
          (by simp [h0] : (!(stripL raw).isEmpty) = true), Bool.and_self,
          if_pos rfl]
        exact congrArg (_ :: ·) ih

/-- C4 counterexample: the file `"hello\n"` has one non-empty line, yet
`MemoryUpdater._parse_longterm_file` produces no entry at all — the
non-matching line is dropped, not kept with `timestamp = "unknown"`. -/
theorem claim_C4_counterexample :
    parseLongtermFile "hello\n".data = [] ∧
    ((splitNl "hello\n".data).map stripL).filter (fun l => !l.isEmpty) =
      ["hello".data] := by
  decide

/-- C4 as amended: the init script's parser
(`Database/init_longterm_memory.py`) keeps one entry per non-empty line,
in file order, with non-matching lines kept verbatim under
`timestamp = "unknown"`; but the updater's parser
(`MemoryUpdater._parse_longterm_file`) keeps only the lines matching its
timestamp prefix, so non-matching lines are dropped by the parse and lost
by a cleanup rewrite. -/
theorem claim_C4_parse_line_handling (c : List Char) :
    (initParseFile c).map (fun e => e.text) =
      ((splitNl c).map stripL).filter (fun l => !l.isEmpty) ∧
    (∀ e ∈ initParseFile c, matchBracketLine e.text = none →
      e.timestamp = "unknown".data) ∧
    (parseLongtermFile c).map (fun e => e.fullLine) =
      ((splitNl c).map stripL).filter
        (fun l => !l.isEmpty && (matchTimestampLine l).isSome) :=
  ⟨initParse_texts c, fun _ he hm => initParse_unknown he hm, updaterParse_lines c⟩

theorem claim_C4_parse_line_handling_witness :
    ({ lineNum := 1, timestamp := "unknown".data, text := "hello".data,
       textWithoutTimestamp := "hello".data } : InitEntry).timestamp = "unknown".data :=
  (claim_C4_parse_line_handling "hello\n".data).2.1 _ (by decide) (by decide)

/-! ## Vector-store cleanup lemmas -/

theorem deleteDatesLoop_ok {fail : List Char → Option (List Char)} :
    ∀ {ds : List (List Char)} {pts : List QPoint}, (∀ d ∈ ds, fail d = none) →
      deleteDatesLoop fail pts ds = (ds.foldl deletePointsOfDate pts, none) := by
  intro ds
  induction ds with
  | nil => intro pts _; rfl
  | cons d rest ih =>
    intro pts h
    show (match fail d with
      | some e => (pts, some e)
      | none => deleteDatesLoop fail (deletePointsOfDate pts d) rest) = _
    rw [h d (List.mem_cons_self _ _)]
    exact ih fun d' hd' => h d' (List.mem_cons_of_mem _ hd')

theorem deleteDatesLoop_abort {fail : List Char → Option (List Char)}
    {pre : List (List Char)} {d₀ e : List Char} (post : List (List Char)) :
    ∀ {pts : List QPoint}, (∀ d ∈ pre, fail d = none) → fail d₀ = some e →
      deleteDatesLoop fail pts (pre ++ d₀ :: post) =
        (pre.foldl deletePointsOfDate pts, some e) := by
  induction pre with
  | nil =>
    intro pts _ hd
    show (match fail d₀ with
      | some e => (pts, some e)
      | none => deleteDatesLoop fail (deletePointsOfDate pts d₀) post) = _
    rw [hd]
    rfl
  | cons d rest ih =>
    intro pts hpre hd
    show (match fail d with
      | some e => (pts, some e)
      | none => deleteDatesLoop fail (deletePointsOfDate pts d) (rest ++ d₀ :: post)) = _
    rw [hpre d (List.mem_cons_self _ _)]
    exact ih (fun d' hd' => hpre d' (List.mem_cons_of_mem _ hd')) hd

theorem mem_foldl_delete {ds : List (List Char)} {pts : List QPoint} {p : QPoint} :
    p ∈ ds.foldl deletePointsOfDate pts ↔
      p ∈ pts ∧ ∀ d ∈ ds, ¬ pointDate p = some d := by
  induction ds generalizing pts with
  | nil => simp
  | cons d rest ih =>
    rw [List.foldl_cons, ih]
    unfold deletePointsOfDate
    simp only [List.mem_filter, List.mem_cons, Bool.not_eq_true', beq_eq_false_iff_ne,
      ne_eq]
    constructor
    · rintro ⟨⟨hp, hnd⟩, hrest⟩
      refine ⟨hp, fun d' hd' => ?_⟩
      rcases hd' with h | h
      · rw [h]; exact hnd
      · exact hrest d' h
    · rintro ⟨hp, hall⟩
      exact ⟨⟨hp, hall d (Or.inl rfl)⟩, fun d' hd' => hall d' (Or.inr hd')⟩

/-- When the scan succeeds and no per-date delete fails, the vector-store
cleanup leaves at most `maxDays` distinct dates. -/
theorem cleanupQdrant_dates_le (m : Nat) (o : QdrantOracle) (pts : List QPoint)
    (hs : o.scanFail = false) (hf : ∀ d, o.deleteFail d = none) :
    (distinctQdrantDates (cleanupQdrant m o pts)).length ≤ m := by
  have hga : getAllQdrantDates o.scanFail pts = sortDatesDesc (distinctQdrantDates pts) := by
    rw [hs]; rfl
  dsimp only [cleanupQdrant]
  rw [hga]
  by_cases h1 : (sortDatesDesc (distinctQdrantDates pts)).isEmpty
  · rw [if_pos h1]
    have hlen := sortDatesDesc_length (distinctQdrantDates pts)
    rw [List.isEmpty_iff.mp h1] at hlen
    simp at hlen
    omega
  · rw [if_neg h1]
    by_cases h2 : (sortDatesDesc (distinctQdrantDates pts)).length ≤ m
    · rw [if_pos h2]
      rw [sortDatesDesc_length] at h2
      exact h2
    · rw [if_neg h2]
      rw [deleteDatesLoop_ok (fun d _ => hf d)]
      have hsub : distinctQdrantDates
          (((sortDatesDesc (distinctQdrantDates pts)).drop m).foldl deletePointsOfDate pts) ⊆
          (sortDatesDesc (distinctQdrantDates pts)).take m := by
        intro d hd
        rcases List.mem_filterMap.mp (List.mem_dedup.mp hd) with ⟨p, hp, hpd⟩
        rw [mem_foldl_delete] at hp
        have hmem : d ∈ sortDatesDesc (distinctQdrantDates pts) :=
          mem_sortDatesDesc.mpr
            (List.mem_dedup.mpr (List.mem_filterMap.mpr ⟨p, hp.1, hpd⟩))
        rw [← List.take_append_drop m (sortDatesDesc (distinctQdrantDates pts))] at hmem
        rcases List.mem_append.mp hmem with h | h
        · exact h
        · exact absurd hpd (hp.2 d h)
      exact le_trans ((List.subperm_of_subset (List.nodup_dedup _) hsub).length_le)
        (List.length_take_le _ _)

/-! ## Claim C3 — a failing date aborts the vector-store cleanup pass -/

/-- C3 counterexample: `maxDays = 1` with points on the three days
2024-01-01 … 2024-01-03 makes both older days expired.  A failure while
deleting 2024-01-02's points leaves the whole store untouched — in
particular the remaining expired date 2024-01-01 is not deleted — whereas
the same pass with no failure deletes both expired days. -/
theorem claim_C3_counterexample :
    cleanupQdrant 1 failOn0102 samplePts3 = samplePts3 ∧
    (⟨3, some "2024-01-01".data, []⟩ : QPoint) ∈ cleanupQdrant 1 failOn0102 samplePts3 ∧
    cleanupQdrant 1 allOkQdrant samplePts3 = [⟨1, some "2024-01-03".data, []⟩] := by
  decide

/-- C3 as amended: the failure is caught and logged and never propagates
(`cleanupQdrant` always returns a point set), but the pass does not
continue: when the expired dates are `pre ++ d₀ :: post` and the first
failure occurs at `d₀`, only the dates of `pre` have been deleted; `d₀`
and every date of `post` keep their points. -/
theorem claim_C3_partial_cleanup_aborts
    (o : QdrantOracle) (m : Nat) (pts : List QPoint)
    (pre post : List (List Char)) (d₀ e : List Char)
    (hs : o.scanFail = false)
    (hm : m < (distinctQdrantDates pts).length)
    (hsplit : (sortDatesDesc (distinctQdrantDates pts)).drop m = pre ++ d₀ :: post)
    (hpre : ∀ d ∈ pre, o.deleteFail d = none) (hd : o.deleteFail d₀ = some e) :
    cleanupQdrant m o pts = pre.foldl deletePointsOfDate pts := by
  have hga : getAllQdrantDates o.scanFail pts = sortDatesDesc (distinctQdrantDates pts) := by
    rw [hs]; rfl
  dsimp only [cleanupQdrant]
  rw [hga]
  have hlen : (sortDatesDesc (distinctQdrantDates pts)).length =
      (distinctQdrantDates pts).length := sortDatesDesc_length _
  rw [if_neg (by rw [List.isEmpty_iff]; intro hh; rw [hh] at hlen; simp at hlen; omega),
    if_neg (by omega), hsplit, deleteDatesLoop_abort post hpre hd]

theorem claim_C3_partial_cleanup_aborts_witness :
    cleanupQdrant 1 failOn0102 samplePts3 =
      List.foldl deletePointsOfDate samplePts3 [] :=
  claim_C3_partial_cleanup_aborts failOn0102 1 samplePts3 [] ["2024-01-01".data]
    "2024-01-02".data "boom".data (by decide) (by decide) (by decide)
    (by intro d hd; simp at hd) (by decide)

/-! ## Shape of a successful maintenance run -/

theorem uAA_date (m : Nat) (o : UpdOracle) (r : UpdResult) (s : MemState) :
    (updateAfterAppend m o r s).1.date = r.date := by
  dsimp only [updateAfterAppend]
  rcases hc : o.cleanupLogFail with _ | e
  · rcases hct : o.clearTempFail with _ | e
    · rfl
    · rfl
  · rfl

theorem uAA_dichotomy (m : Nat) (o : UpdOracle) (r : UpdResult) (s : MemState)
    (he : r.errors = []) (hs : r.success = true) :
    ((updateAfterAppend m o r s).1.success = true ∧
      (updateAfterAppend m o r s).1.errors = []) ∨
    ((updateAfterAppend m o r s).1.success = false ∧
      ∃ e, (updateAfterAppend m o r s).1.errors = [e]) := by
  dsimp only [updateAfterAppend]
  rcases hc : o.cleanupLogFail with _ | e
  · rcases hct : o.clearTempFail with _ | e
    · left; exact ⟨hs, he⟩
    · right; exact ⟨rfl, e, by simp [updFail, he]⟩
  · right; exact ⟨rfl, e, by simp [updFail, he]⟩

theorem uAA_success_state (m : Nat) (o : UpdOracle) (r : UpdResult) (s : MemState)
    (h : (updateAfterAppend m o r s).1.success = true) :
    (updateAfterAppend m o r s).2.log = cleanupLongtermFile m s.log ∧
    (updateAfterAppend m o r s).2.qdrant = cleanupQdrant m o.qdrant s.qdrant ∧
    (updateAfterAppend m o r s).2.temp = [] := by
  dsimp only [updateAfterAppend] at h ⊢
  rcases hc : o.cleanupLogFail with _ | e
  · rcases hct : o.clearTempFail with _ | e
    · exact ⟨rfl, rfl, rfl⟩
    · rw [hc, hct] at h
      exact absurd h (by simp [updFail])
  · rw [hc] at h
    exact absurd h (by simp [updFail])

theorem uAA_clear_fail (m : Nat) (o : UpdOracle) (r : UpdResult) (s : MemState)
    (e : List Char) (hc : o.cleanupLogFail = none) (hct : o.clearTempFail = some e) :
    updateAfterAppend m o r s =
      (updFail { r with longtermCleaned := true, qdrantCleaned := true } e,
       { s with log := cleanupLongtermFile m s.log,
                qdrant := cleanupQdrant m o.qdrant s.qdrant }) := by
  dsimp only [updateAfterAppend]
  rw [hc, hct]

/-- However the oracles behave, a run reporting success has cleaned the
log, cleaned the vector store (against its own pre-cleanup log state),
and cleared the temp buffer. -/
theorem updateMemory_success_state (m : Nat) (nowTs nowDate : List Char) (o : UpdOracle)
    (s : MemState) (h : (updateMemory m nowTs nowDate o s).1.success = true) :
    (∃ L, (updateMemory m nowTs nowDate o s).2.log = cleanupLongtermFile m L) ∧
    (updateMemory m nowTs nowDate o s).2.qdrant = cleanupQdrant m o.qdrant s.qdrant ∧
    (updateMemory m nowTs nowDate o s).2.temp = [] := by
  dsimp only [updateMemory] at h ⊢
  rcases hr : o.readTempFail with _ | e
  · rw [hr] at h
    by_cases hT : (stripL s.temp).isEmpty
    · rw [if_pos hT] at h ⊢
      rcases uAA_success_state m o _ s h with ⟨h1, h2, h3⟩
      exact ⟨⟨s.log, h1⟩, h2, h3⟩
    · rw [if_neg hT] at h ⊢
      by_cases hS : (match o.llm with
        | .ok t => stripL t
        | .error _ => stripL s.temp).isEmpty
      · rw [if_pos hS] at h ⊢
        rcases uAA_success_state m o _ s h with ⟨h1, h2, h3⟩
        exact ⟨⟨s.log, h1⟩, h2, h3⟩
      · rw [if_neg hS] at h ⊢
        rcases ha : o.appendFail with _ | e
        · rw [ha] at h
          rcases uAA_success_state m o _ _ h with ⟨h1, h2, h3⟩
          exact ⟨⟨_, h1⟩, h2, h3⟩
        · rw [ha] at h
          exact absurd h (by simp [updFail])
  · rw [hr] at h
    exact absurd h (by simp [updFail])

/-! ## Claim C1 — date sets after a successful run -/

/-- C1 counterexample: with an empty temp buffer, a log holding only
2024-01-01 and a vector store holding only 2024-02-02, every external
call succeeds, the run reports success, and the two stores retain
different date sets. -/
theorem claim_C1_counterexample :
    (updateMemory 10 "2024-03-01 20:00:00".data "2024-03-01".data allOkOracle
        mismatchedState).1.success = true ∧
    distinctLogDates (updateMemory 10 "2024-03-01 20:00:00".data "2024-03-01".data
        allOkOracle mismatchedState).2.log = ["2024-01-01".data] ∧
    distinctQdrantDates (updateMemory 10 "2024-03-01 20:00:00".data "2024-03-01".data
        allOkOracle mismatchedState).2.qdrant = ["2024-02-02".data] ∧
    ¬ (["2024-01-01".data] : List (List Char)) = ["2024-02-02".data] := by
  decide

/-- C1 as amended: after a run with `success = true` in which the
vector-store scan and per-date deletes did not internally fail, each
store individually retains at most `maxDays` distinct dates; the two date
sets need not be equal (each store is trimmed against its own contents). -/
theorem claim_C1_retention_bound
    (m : Nat) (nowTs nowDate : List Char) (o : UpdOracle) (s : MemState)
    (hs : o.qdrant.scanFail = false) (hf : ∀ d, o.qdrant.deleteFail d = none)
    (hsucc : (updateMemory m nowTs nowDate o s).1.success = true) :
    (distinctLogDates (updateMemory m nowTs nowDate o s).2.log).length ≤ m ∧
    (distinctQdrantDates (updateMemory m nowTs nowDate o s).2.qdrant).length ≤ m := by
  rcases updateMemory_success_state m nowTs nowDate o s hsucc with ⟨⟨L, hL⟩, hQ, _⟩
  rw [hL, hQ]
  exact ⟨cleanup_dates_le m L, cleanupQdrant_dates_le m o.qdrant s.qdrant hs hf⟩

/-! ## Claim C7 — the coordinator catches everything and rolls nothing
back -/

theorem updateMemory_date (m : Nat) (nowTs nowDate : List Char) (o : UpdOracle)
    (s : MemState) : (updateMemory m nowTs nowDate o s).1.date = nowDate := by
  dsimp only [updateMemory]
  rcases hr : o.readTempFail with _ | e
  · by_cases hT : (stripL s.temp).isEmpty
    · rw [if_pos hT]
      exact uAA_date m o _ s
    · rw [if_neg hT]
      by_cases hS : (match o.llm with
        | .ok t => stripL t
        | .error _ => stripL s.temp).isEmpty
      · rw [if_pos hS]
        exact uAA_date m o _ s
      · rw [if_neg hS]
        rcases ha : o.appendFail with _ | e
        · exact uAA_date m o _ _
        · rfl
  · rfl

theorem updateMemory_dichotomy (m : Nat) (nowTs nowDate : List Char) (o : UpdOracle)
    (s : MemState) :
    ((updateMemory m nowTs nowDate o s).1.success = true ∧
      (updateMemory m nowTs nowDate o s).1.errors = []) ∨
    ((updateMemory m nowTs nowDate o s).1.success = false ∧
      ∃ e, (updateMemory m nowTs nowDate o s).1.errors = [e]) := by
  dsimp only [updateMemory]
  rcases hr : o.readTempFail with _ | e
  · by_cases hT : (stripL s.temp).isEmpty
    · rw [if_pos hT]
      exact uAA_dichotomy m o _ s rfl rfl
    · rw [if_neg hT]
      by_cases hS : (match o.llm with
        | .ok t => stripL t
        | .error _ => stripL s.temp).isEmpty
      · rw [if_pos hS]
        exact uAA_dichotomy m o _ s rfl rfl
      · rw [if_neg hS]
        rcases ha : o.appendFail with _ | e
        · exact uAA_dichotomy m o _ _ rfl rfl
        · right; exact ⟨rfl, e, rfl⟩
  · right; exact ⟨rfl, e, rfl⟩

/-- C7: `update_memory` always returns a structured result — with the
requested date, and either `success` with an empty error list or
`¬success` with the single caught error recorded — and when only the
final temp-file clearing fails, the side effects already committed (the
appended-and-cleaned log, the cleaned vector store) are kept, not rolled
back. -/
theorem claim_C7_top_level_catch (m : Nat) (nowTs nowDate : List Char) (o : UpdOracle)
    (s : MemState) :
    (updateMemory m nowTs nowDate o s).1.date = nowDate ∧
    (((updateMemory m nowTs nowDate o s).1.success = true ∧
      (updateMemory m nowTs nowDate o s).1.errors = []) ∨
     ((updateMemory m nowTs nowDate o s).1.success = false ∧
      ∃ e, (updateMemory m nowTs nowDate o s).1.errors = [e])) ∧
    (∀ e, o.readTempFail = none → o.appendFail = none → o.cleanupLogFail = none →
      o.clearTempFail = some e →
      (updateMemory m nowTs nowDate o s).1.success = false ∧
      (updateMemory m nowTs nowDate o s).1.errors = [e] ∧
      (updateMemory m nowTs nowDate o s).2.qdrant = cleanupQdrant m o.qdrant s.qdrant ∧
      (updateMemory m nowTs nowDate o s).2.temp = s.temp ∧
      ∃ L, (updateMemory m nowTs nowDate o s).2.log = cleanupLongtermFile m L) := by
  refine ⟨updateMemory_date m nowTs nowDate o s, updateMemory_dichotomy m nowTs nowDate o s, ?_⟩
  intro e hr ha hc hct
  dsimp only [updateMemory]
  rw [hr]
  by_cases hT : (stripL s.temp).isEmpty
  · rw [if_pos hT, uAA_clear_fail m o _ s e hc hct]
    exact ⟨rfl, rfl, rfl, rfl, s.log, rfl⟩
  · rw [if_neg hT]
    by_cases hS : (match o.llm with
      | .ok t => stripL t
      | .error _ => stripL s.temp).isEmpty
    · rw [if_pos hS, uAA_clear_fail m o _ s e hc hct]
      exact ⟨rfl, rfl, rfl, rfl, s.log, rfl⟩
    · rw [if_neg hS, ha, uAA_clear_fail m o _ _ e hc hct]
      exact ⟨rfl, rfl, rfl, rfl, _, rfl⟩

theorem claim_C7_top_level_catch_witness :
    (updateMemory 10 "2024-03-01 20:00:00".data "2024-03-01".data clearFailOracle
        mismatchedState).1.success = false ∧
    (updateMemory 10 "2024-03-01 20:00:00".data "2024-03-01".data clearFailOracle
        mismatchedState).1.errors = ["disk error".data] ∧
    (updateMemory 10 "2024-03-01 20:00:00".data "2024-03-01".data clearFailOracle
        mismatchedState).2.qdrant =
      cleanupQdrant 10 clearFailOracle.qdrant mismatchedState.qdrant ∧
    (updateMemory 10 "2024-03-01 20:00:00".data "2024-03-01".data clearFailOracle
        mismatchedState).2.temp = mismatchedState.temp ∧
    ∃ L, (updateMemory 10 "2024-03-01 20:00:00".data "2024-03-01".data clearFailOracle
        mismatchedState).2.log = cleanupLongtermFile 10 L :=
  (claim_C7_top_level_catch 10 "2024-03-01 20:00:00".data "2024-03-01".data
    clearFailOracle mismatchedState).2.2 "disk error".data rfl rfl rfl rfl

theorem claim_C1_retention_bound_witness :
    (distinctLogDates (updateMemory 10 "2024-03-01 20:00:00".data "2024-03-01".data
        allOkOracle mismatchedState).2.log).length ≤ 10 ∧
    (distinctQdrantDates (updateMemory 10 "2024-03-01 20:00:00".data "2024-03-01".data
        allOkOracle mismatchedState).2.qdrant).length ≤ 10 :=
  claim_C1_retention_bound 10 "2024-03-01 20:00:00".data "2024-03-01".data allOkOracle
    mismatchedState (by decide) (fun d => rfl) (by decide)

/-! ## Claim C5 — count-based id allocation -/

/-- C5 counterexample: after cleanup has deleted point 1, the collection
holds points 2 and 3 with `points_count = 2`, so the next allocated id is
3 — the id of an existing point — and the upsert silently overwrites
point 3 instead of appending a new point. -/
theorem claim_C5_counterexample :
    nextPointId twoPtsShifted = 3 ∧
    (∃ p ∈ twoPtsShifted, p.id = nextPointId twoPtsShifted) ∧
    upsertPoint twoPtsShifted ⟨nextPointId twoPtsShifted, some "2024-05-05".data, "new".data⟩ =
      [⟨2, none, "t2".data⟩, ⟨3, some "2024-05-05".data, "new".data⟩] := by
  decide

/-- C5 as amended: ids are allocated sequentially from the current point
count (`next_id + i` for the `i`-th point of a batch), and such an id is
fresh — so the upsert appends instead of overwriting — exactly under the
no-deletion invariant that every stored id is at most the point count;
retention cleanup can break that invariant, after which the allocated id
may collide with a surviving point. -/
theorem claim_C5_alloc_fresh (pts : List QPoint) (n i : Nat)
    (hinv : ∀ p ∈ pts, p.id ≤ pts.length) (hi : i < n) :
    (batchIds pts n)[i]? = some (nextPointId pts + i) ∧
    (∀ p ∈ pts, ¬ p.id = nextPointId pts + i) ∧
    (∀ q : QPoint, q.id = nextPointId pts + i → upsertPoint pts q = pts ++ [q]) := by
  refine ⟨?_, ?_, ?_⟩
  · unfold batchIds
    rw [List.getElem?_map, List.getElem?_range hi]
    rfl
  · intro p hp
    have := hinv p hp
    unfold nextPointId
    omega
  · intro q hq
    have hfresh : pts.any (fun p => p.id == q.id) = false := by
      rw [List.any_eq_false]
      intro p hp
      have := hinv p hp
      simp only [beq_iff_eq, hq]
      unfold nextPointId
      omega
    unfold upsertPoint
    rw [if_neg (by simp [hfresh])]

theorem claim_C5_alloc_fresh_witness :
    (batchIds [⟨1, none, "a".data⟩] 2)[1]? =
      some (nextPointId [⟨1, none, "a".data⟩] + 1) ∧
    (∀ p ∈ [(⟨1, none, "a".data⟩ : QPoint)],
      ¬ p.id = nextPointId [⟨1, none, "a".data⟩] + 1) ∧
    (∀ q : QPoint, q.id = nextPointId [⟨1, none, "a".data⟩] + 1 →
      upsertPoint [⟨1, none, "a".data⟩] q = [⟨1, none, "a".data⟩] ++ [q]) :=
  claim_C5_alloc_fresh [⟨1, none, "a".data⟩] 2 1 (by decide) (by decide)

/-! ## Claim C6 — batched-embedding retry policy -/

theorem rateLimitedCount_succ (oracle : Nat → EmbedAttempt) (k : Nat) :
    rateLimitedCount oracle (k + 1) =
      (match oracle 0 with
        | .err m => if isRateLimitError m then 1 else 0
        | .ok _ => 0) + rateLimitedCount (fun i => oracle (i + 1)) k := by
  unfold rateLimitedCount
  rw [List.range_succ_eq_map, List.countP_cons, List.countP_map]
  have hcomp : List.countP ((fun i =>
      match oracle i with
      | .err m => isRateLimitError m
      | .ok _ => false) ∘ Nat.succ) (List.range k) =
      List.countP (fun i =>
      match oracle (i + 1) with
      | .err m => isRateLimitError m
      | .ok _ => false) (List.range k) := rfl
  rw [hcomp]
  rcases h0 : oracle 0 with e | m
  · simp [h0]
  · simp only [h0]
    exact Nat.add_comm _ _

/-- Full characterization of the retry loop over an arbitrary sequence of
provider outcomes. -/
theorem embedAux_spec (fuel : Nat) :
    ∀ oracle : Nat → EmbedAttempt, 1 ≤ fuel →
      1 ≤ (getBatchEmbeddingsAux oracle fuel).attempts ∧
      (getBatchEmbeddingsAux oracle fuel).attempts ≤ fuel ∧
      (∀ i, i + 1 < (getBatchEmbeddingsAux oracle fuel).attempts →
        ∃ msg, oracle i = .err msg) ∧
      (getBatchEmbeddingsAux oracle fuel).sleeps =
        rateLimitedCount oracle ((getBatchEmbeddingsAux oracle fuel).attempts - 1) ∧
      (∀ e, oracle ((getBatchEmbeddingsAux oracle fuel).attempts - 1) = .ok e →
        (getBatchEmbeddingsAux oracle fuel).result = .success e) ∧
      (∀ msg, oracle ((getBatchEmbeddingsAux oracle fuel).attempts - 1) = .err msg →
        (getBatchEmbeddingsAux oracle fuel).result = .raised msg ∧
        (getBatchEmbeddingsAux oracle fuel).attempts = fuel) := by
  induction fuel with
  | zero => intro oracle h; exact absurd h (by omega)
  | succ rem ih =>
    intro oracle _
    rcases h0 : oracle 0 with e | m
    · have hrun : getBatchEmbeddingsAux oracle (rem + 1) = ⟨.success e, 0, 1⟩ := by
        simp [getBatchEmbeddingsAux, h0]
      rw [hrun]
      refine ⟨le_refl 1, by show 1 ≤ rem + 1; omega,
        fun i hi => absurd hi (by show ¬ i + 1 < 1; omega), rfl, ?_, ?_⟩
      · intro e' he'
        have he2 : oracle 0 = EmbedAttempt.ok e' := he'
        rw [h0] at he2
        injection he2 with hh
        show EmbedResult.success e = EmbedResult.success e'
        rw [hh]
      · intro msg hmsg
        have hm2 : oracle 0 = EmbedAttempt.err msg := hmsg
        rw [h0] at hm2
        exact absurd hm2 (by simp)
    · by_cases hz : rem = 0
      · subst hz
        have hrun : getBatchEmbeddingsAux oracle 1 = ⟨.raised m, 0, 1⟩ := by
          simp [getBatchEmbeddingsAux, h0]
        rw [hrun]
        refine ⟨le_refl 1, le_refl 1,
          fun i hi => absurd hi (by show ¬ i + 1 < 1; omega), rfl, ?_, ?_⟩
        · intro e he
          have he2 : oracle 0 = EmbedAttempt.ok e := he
          rw [h0] at he2
          exact absurd he2 (by simp)
        · intro msg hmsg
          have hm2 : oracle 0 = EmbedAttempt.err msg := hmsg
          rw [h0] at hm2
          injection hm2 with hh
          exact ⟨by show EmbedResult.raised m = _; rw [hh], rfl⟩
      · have hrun : getBatchEmbeddingsAux oracle (rem + 1) =
            ⟨(getBatchEmbeddingsAux (fun i => oracle (i + 1)) rem).result,
             (getBatchEmbeddingsAux (fun i => oracle (i + 1)) rem).sleeps +
               (if isRateLimitError m then 1 else 0),
             (getBatchEmbeddingsAux (fun i => oracle (i + 1)) rem).attempts + 1⟩ := by
          simp [getBatchEmbeddingsAux, h0, hz]
        rcases ih (fun i => oracle (i + 1)) (by omega) with ⟨ih1, ih2, ih3, ih4, ih5, ih6⟩
        rw [hrun]
        refine ⟨?_, ?_, ?_, ?_, ?_, ?_⟩
        · show 1 ≤ (getBatchEmbeddingsAux (fun i => oracle (i + 1)) rem).attempts + 1
          omega
        · show (getBatchEmbeddingsAux (fun i => oracle (i + 1)) rem).attempts + 1 ≤ rem + 1
          omega
        · intro i hi
          have hi2 : i + 1 <
              (getBatchEmbeddingsAux (fun i => oracle (i + 1)) rem).attempts + 1 := hi
          rcases i with _ | j
          · exact ⟨m, h0⟩
          · exact ih3 j (by omega)
        · show (getBatchEmbeddingsAux (fun i => oracle (i + 1)) rem).sleeps +
              (if isRateLimitError m then 1 else 0) =
            rateLimitedCount oracle
              ((getBatchEmbeddingsAux (fun i => oracle (i + 1)) rem).attempts + 1 - 1)
          have hat : (getBatchEmbeddingsAux (fun i => oracle (i + 1)) rem).attempts + 1 - 1 =
              ((getBatchEmbeddingsAux (fun i => oracle (i + 1)) rem).attempts - 1) + 1 := by
            omega
          rw [hat, rateLimitedCount_succ, h0, ih4]
          exact Nat.add_comm _ _
        · intro e he
          have he1 : oracle
              ((getBatchEmbeddingsAux (fun i => oracle (i + 1)) rem).attempts + 1 - 1) =
              EmbedAttempt.ok e := he
          have he2 : (fun i => oracle (i + 1))
              ((getBatchEmbeddingsAux (fun i => oracle (i + 1)) rem).attempts - 1) =
              EmbedAttempt.ok e := by
            rw [← he1]
            show oracle _ = oracle _
            congr 1
            omega
          exact ih5 e he2
        · intro msg hmsg
          have hm1 : oracle
              ((getBatchEmbeddingsAux (fun i => oracle (i + 1)) rem).attempts + 1 - 1) =
              EmbedAttempt.err msg := hmsg
          have hm2 : (fun i => oracle (i + 1))
              ((getBatchEmbeddingsAux (fun i => oracle (i + 1)) rem).attempts - 1) =
              EmbedAttempt.err msg := by
            rw [← hm1]
            show oracle _ = oracle _
            congr 1
            omega
          rcases ih6 msg hm2 with ⟨hres, hat2⟩
          refine ⟨hres, ?_⟩
          show (getBatchEmbeddingsAux (fun i => oracle (i + 1)) rem).attempts + 1 = rem + 1
          omega

/-- C6: the loop makes at most `maxRetries` provider calls; every
non-final call failed; the number of 60-second sleeps is exactly the
number of rate-limited failures among the non-final calls (other failures
retry with no delay); a failure on the final possible call is re-raised
after exactly `maxRetries` calls; and on the spec's stub — rate-limited
twice, then success — `embed` succeeds on the third call after exactly
two sleeps. -/
theorem claim_C6_embed_retry (oracle : Nat → EmbedAttempt) (maxRetries : Nat)
    (h : 1 ≤ maxRetries) :
    (getBatchEmbeddings oracle maxRetries).attempts ≤ maxRetries ∧
    (∀ i, i + 1 < (getBatchEmbeddings oracle maxRetries).attempts →
      ∃ msg, oracle i = .err msg) ∧
    (getBatchEmbeddings oracle maxRetries).sleeps =
      rateLimitedCount oracle ((getBatchEmbeddings oracle maxRetries).attempts - 1) ∧
    (∀ e, oracle ((getBatchEmbeddings oracle maxRetries).attempts - 1) = .ok e →
      (getBatchEmbeddings oracle maxRetries).result = .success e) ∧
    (∀ msg, oracle ((getBatchEmbeddings oracle maxRetries).attempts - 1) = .err msg →
      (getBatchEmbeddings oracle maxRetries).result = .raised msg ∧
      (getBatchEmbeddings oracle maxRetries).attempts = maxRetries) ∧
    getBatchEmbeddings rlTwiceOracle 5 = ⟨.success [[1, 2], [3, 4]], 2, 3⟩ := by
  rcases embedAux_spec maxRetries oracle h with ⟨_, h2, h3, h4, h5, h6⟩
  exact ⟨h2, h3, h4, h5, h6, by decide⟩

theorem claim_C6_embed_retry_witness :
    (getBatchEmbeddings rlTwiceOracle 5).attempts ≤ 5 ∧
    (getBatchEmbeddings rlTwiceOracle 5).sleeps =
      rateLimitedCount rlTwiceOracle ((getBatchEmbeddings rlTwiceOracle 5).attempts - 1) :=
  ⟨(claim_C6_embed_retry rlTwiceOracle 5 (by decide)).1,
   (claim_C6_embed_retry rlTwiceOracle 5 (by decide)).2.2.1⟩

/-! ## Claim C8 — the session-priming state machine -/

/-- C8 counterexample: in a primed agent, a chat turn whose ordinary
agent invocation raises returns the error string and leaves
`message_count_since_prime` unchanged at 0 — it is not incremented by
exactly 1 as the claim states for every ordinary turn. -/
theorem claim_C8_counterexample :
    (chat true true false ⟨true, 0, 10⟩).1.messageCountSincePrime = 0 ∧
    (chat true true false ⟨true, 0, 10⟩).2 = false ∧
    ¬ (chat true true false ⟨true, 0, 10⟩).1.messageCountSincePrime = 1 := by
  decide

/-- C8 as amended: a fresh agent is unprimed with a zero counter; a
successful prime sets `is_primed` and zeroes the counter while a failed
prime changes nothing; `shouldReprime` holds exactly when the counter has
reached `buffer_size`; a chat turn increments the counter by exactly 1
when its ordinary invocation succeeds (the priming call is not counted)
and leaves the state of the turn unchanged when it raises; and after
`buffer_size` successful ordinary turns following a successful prime,
`shouldReprime` becomes true (and not before). -/
theorem claim_C8_priming_state_machine (b : Nat) (s : AgentState) (po : Bool) :
    (initAgentState b).isPrimed = false ∧
    (initAgentState b).messageCountSincePrime = 0 ∧
    primeMemory true s =
      { isPrimed := true, messageCountSincePrime := 0, bufferSize := s.bufferSize } ∧
    primeMemory false s = s ∧
    (shouldReprime s = true ↔ s.bufferSize ≤ s.messageCountSincePrime) ∧
    (∀ auto pok, (chat auto pok true s).1.messageCountSincePrime =
      (if auto && (!s.isPrimed || shouldReprime s) then primeMemory pok s
       else s).messageCountSincePrime + 1) ∧
    (∀ auto pok, (chat auto pok false s).1 =
      (if auto && (!s.isPrimed || shouldReprime s) then primeMemory pok s else s)) ∧
    (∀ k, k ≤ b →
      (fun st => (chat true po true st).1)^[k] (primeMemory true (initAgentState b)) =
        { isPrimed := true, messageCountSincePrime := k, bufferSize := b }) ∧
    (∀ k, k < b →
      shouldReprime ((fun st => (chat true po true st).1)^[k]
        (primeMemory true (initAgentState b))) = false) ∧
    shouldReprime ((fun st => (chat true po true st).1)^[b]
      (primeMemory true (initAgentState b))) = true := by
  have hiter : ∀ k, k ≤ b →
      (fun st => (chat true po true st).1)^[k] (primeMemory true (initAgentState b)) =
        { isPrimed := true, messageCountSincePrime := k, bufferSize := b } := by
    intro k
    induction k with
    | zero => intro _; rfl
    | succ j ihj =>
      intro hjb
      rw [Function.iterate_succ_apply', ihj (by omega)]
      show (chat true po true ⟨true, j, b⟩).1 = _
      have hcond : (true && (!(true : Bool) || shouldReprime ⟨true, j, b⟩)) = false := by
        have : shouldReprime ⟨true, j, b⟩ = false := by
          simp only [shouldReprime]
          exact decide_eq_false (by omega)
        simp [this]
      simp only [chat, hcond, if_pos rfl]
      rfl
  refine ⟨rfl, rfl, rfl, rfl, ?_, ?_, ?_, hiter, ?_, ?_⟩
  · simp only [shouldReprime]
    exact decide_eq_true_iff
  · intro auto pok
    simp [chat]
  · intro auto pok
    simp [chat]
  · intro k hkb
    rw [hiter k (by omega)]
    simp only [shouldReprime]
    exact decide_eq_false (by omega)
  · rw [hiter b (le_refl b)]
    simp only [shouldReprime]
    exact decide_eq_true (le_refl b)

theorem claim_C8_priming_state_machine_witness :
    (fun st => (chat true true true st).1)^[2] (primeMemory true (initAgentState 2)) =
      { isPrimed := true, messageCountSincePrime := 2, bufferSize := 2 } ∧
    shouldReprime ((fun st => (chat true true true st).1)^[2]
      (primeMemory true (initAgentState 2))) = true :=
  ⟨(claim_C8_priming_state_machine 2 (initAgentState 2) true).2.2.2.2.2.2.2.1 2
      (le_refl 2),
   (claim_C8_priming_state_machine 2 (initAgentState 2) true).2.2.2.2.2.2.2.2.2⟩

/-! ## Claim C10 — save_memory's dual-write error policy -/

/-- C10: when the information is non-empty, a successful file append
yields the success confirmation string and the appended file whatever the
Qdrant clients do (an embedding or upsert failure is only logged), while
a failing file append yields the error string, leaves the file unchanged
and never writes the vector store. -/
theorem claim_C10_save_memory (o : SaveOracle) (information ts file : List Char)
    (pts : List QPoint) (h : ¬ (stripL information).isEmpty = true) :
    (o.appendFail = none →
      (saveMemoryRun o information ts file pts).output =
        "Đã lưu: ".data ++ stripL information ∧
      (saveMemoryRun o information ts file pts).file =
        file ++ ('[' :: ts ++ ']' :: ' ' :: stripL information ++ ['\n'])) ∧
    (∀ e, o.appendFail = some e →
      (saveMemoryRun o information ts file pts).output = "Lỗi khi lưu: ".data ++ e ∧
      (saveMemoryRun o information ts file pts).file = file ∧
      (saveMemoryRun o information ts file pts).points = pts) := by
  unfold saveMemoryRun
  rw [if_neg h]
  constructor
  · intro ha
    rw [ha]
    by_cases hq : o.qdrantAvailable = true
    · rw [if_pos hq]
      rcases hf : o.qdrantFail with _ | e
      · exact ⟨rfl, rfl⟩
      · exact ⟨rfl, rfl⟩
    · rw [if_neg hq]
      exact ⟨rfl, rfl⟩
  · intro e ha
    rw [ha]
    exact ⟨rfl, rfl, rfl⟩

theorem claim_C10_save_memory_witness :
    (saveMemoryRun ⟨none, true, some "qdrant down".data⟩ "info".data
        "2024-01-01 10:00:00".data [] []).output = "Đã lưu: ".data ++ stripL "info".data ∧
    (saveMemoryRun ⟨none, true, some "qdrant down".data⟩ "info".data
        "2024-01-01 10:00:00".data [] []).file =
      [] ++ ('[' :: "2024-01-01 10:00:00".data ++ ']' :: ' ' :: stripL "info".data ++ ['\n']) :=
  (claim_C10_save_memory ⟨none, true, some "qdrant down".data⟩ "info".data
    "2024-01-01 10:00:00".data [] [] (by decide)).1 rfl

end VSF
